import Mathlib

/-!
Shallow embedding of the split-accounting subsystem of the money-manager app
(`src/store/transactionStore.ts`, `src/components/TransactionForm.tsx`).
JS numbers are modelled as rationals; `Math.round` is `⌊y + 1/2⌋` (ties toward +∞),
`toFixed(2)` rounds ties away from zero.  Firestore documents are records and the
`transactions` collection is a list of documents keyed by `id`.
-/

namespace MoneyManager

/-- `Math.round(x * 100) / 100`: rounding to 2 decimal places, ties toward `+∞`,
modelled over `ℚ`.  Used for all split arithmetic in `transactionStore.ts`. -/
def round2 (x : ℚ) : ℚ := (⌊x * 100 + 1/2⌋ : ℚ) / 100

/-- `x.toFixed(2)` parsed back to a number: rounding to 2 decimal places with ties
away from zero, modelled over `ℚ`.  Used by `TransactionForm.tsx`. -/
def toFixed2 (x : ℚ) : ℚ := if 0 ≤ x then round2 x else -(round2 (-x))

/-- One entry of a transaction's `splitInfo` list: `{userId, amount, percentage}`. -/
structure SplitShare where
  userId : String
  amount : ℚ
  percentage : ℚ
deriving DecidableEq

/-- `splitInfo.reduce((sum, split) => sum + (Number(split.amount) || 0), 0)`:
the raw sum of the supplied share amounts. -/
def rawSum (l : List SplitShare) : ℚ := (l.map (fun s => s.amount)).sum

/-- Proportional adjustment of supplied split amounts, as done identically at
`transactionStore.ts` lines 309–325 (`addTransaction`), 409–425 and 453–469
(`updateTransaction`):

* `totalAmount = Math.round(amount * 100) / 100`,
* `roundedSplitAmount = Math.round(rawSum * 100) / 100`,
* if `|totalAmount - roundedSplitAmount| > 0.01` every entry's amount becomes
  `round2(amount_i * ratio)` with `ratio = totalAmount / (roundedSplitAmount || 1)`
  (the spread `{...split}` keeps `userId` and `percentage` unchanged),
* otherwise the list is returned unchanged. -/
def adjustSplitInfo (amountRaw : ℚ) (splits : List SplitShare) : List SplitShare :=
  let totalAmount := round2 amountRaw
  let roundedSplitAmount := round2 (rawSum splits)
  if 1/100 < |totalAmount - roundedSplitAmount| then
    let ratio := totalAmount / (if roundedSplitAmount = 0 then 1 else roundedSplitAmount)
    splits.map (fun s => { s with amount := round2 (s.amount * ratio) })
  else
    splits

/-- The argument of `addTransaction` (an `Omit<Transaction, 'id'>` object). -/
structure TxnInput where
  amount : ℚ
  description : String
  date : String
  categoryId : String
  userId : String
  type : String
  householdId : Option String
  splitInfo : List SplitShare
deriving DecidableEq

/-- JS truthiness of an optional string field (absent or `''` is falsy). -/
def optTruthy : Option String → Bool
  | none => false
  | some s => s != ""

/-- The `splitInfo` field of `sanitizedTransaction` as persisted on the main
document by `addTransaction` (`transactionStore.ts` lines 284–295): the *raw*
supplied shares, filtered for a truthy `userId`; the document is written at line
306, before the proportional adjustment at lines 318–325, so the stored amounts
are the supplied ones, not the adjusted ones.  An empty input list keeps the
field absent (modelled as `[]`). -/
def addStoredSplitInfo (t : TxnInput) : List SplitShare :=
  if t.splitInfo = [] then []
  else t.splitInfo.filter (fun s => s.userId != "")

/-- The split-portion documents created by `addTransaction` (lines 328–352),
as (userId, amount) data of the adjusted shares surviving the filter
`split.userId && split.userId !== transaction.userId && split.amount > 0`. -/
def addPortionCreates (t : TxnInput) : List SplitShare :=
  (adjustSplitInfo t.amount t.splitInfo).filter
    (fun s => s.userId != "" && s.userId != t.userId && decide (0 < s.amount))

/-- A row of the form's split-member field array (`TransactionForm.tsx`):
`{id, name, amount, percentage}` with the amount string modelled as `ℚ`. -/
structure SplitMember where
  id : String
  name : String
  amount : ℚ
  percentage : ℚ
deriving DecidableEq

/-- `createSplitMembers` (`TransactionForm.tsx` lines 58–71): equal distribution
over the household members; `amount = (totalAmount / memberCount).toFixed(2)`,
`percentage = parseFloat((100 / memberCount).toFixed(2))`. -/
def createSplitMembers (totalAmount : ℚ) (householdMembers : List String) : List SplitMember :=
  if householdMembers = [] then []
  else
    let memberCount : ℚ := householdMembers.length
    let equalAmount := if 0 < memberCount then toFixed2 (totalAmount / memberCount) else 0
    let equalPercentage := if 0 < memberCount then toFixed2 (100 / memberCount) else 0
    householdMembers.map (fun m => { id := m, name := m, amount := equalAmount, percentage := equalPercentage })

/-- The `splitInfo` computed by the form's `onSubmit` (`TransactionForm.tsx`
lines 268–293): if `|Σ amounts - amount| > 0.01`, every member amount is replaced
by `((amount_i) * ratio).toFixed(2)` with `ratio = amount / (totalSplit || 1)`
(the spread keeps `percentage`); then each member is mapped to
`{userId: id, amount, percentage}`. -/
def onSubmitSplitInfo (amount : ℚ) (members : List SplitMember) : List SplitShare :=
  let totalSplitAmount := (members.map (fun m => m.amount)).sum
  let adjusted :=
    if 1/100 < |totalSplitAmount - amount| then
      let ratio := amount / (if totalSplitAmount = 0 then 1 else totalSplitAmount)
      members.map (fun m => { m with amount := toFixed2 (m.amount * ratio) })
    else members
  adjusted.map (fun m => { userId := m.id, amount := m.amount, percentage := m.percentage })

/-- A persisted split-portion document, reduced to the data the reconciliation
pass reads from it: its document id and its member (`userId`). -/
structure Portion where
  id : String
  userId : String
deriving DecidableEq

/-- The `existingSplitPortions` map (`transactionStore.ts` lines 486–493):
a JS `Map` keyed by `userId`, built by iterating the query snapshot with
`Map.set` (later documents overwrite earlier ones), skipping falsy userIds.
Modelled as an association list in insertion order. -/
def buildMap (existing : List Portion) : List Portion :=
  existing.foldl
    (fun m p => if p.userId = "" then m else m.filter (fun q => q.userId != p.userId) ++ [p]) []

/-- The update/create pass of `updateTransaction` (lines 496–537) threaded over
the qualifying shares: looking each share's member up in the map, recording an
update `(portion, new amount)` and removing the member from the map on a hit,
recording a create `(userId, amount)` on a miss.  Returns
`(remaining map, updates, creates)`. -/
def reconcileFold (qual : List SplitShare) (m : List Portion) :
    List Portion × List (Portion × ℚ) × List (String × ℚ) :=
  match qual with
  | [] => (m, [], [])
  | s :: rest =>
    match m.find? (fun p => p.userId == s.userId) with
    | some p =>
      let r := reconcileFold rest (m.filter (fun q => q.userId != s.userId))
      (r.1, (p, s.amount) :: r.2.1, r.2.2)
    | none =>
      let r := reconcileFold rest m
      (r.1, r.2.1, (s.userId, s.amount) :: r.2.2)

/-- The split-portion reconciliation of `updateTransaction` (lines 478–554):
the qualifying shares are
`adjustedSplitInfo.filter(split => split && split.userId && split.userId !== currentTransaction.userId)`;
portions left in the map after the update/create pass are deleted (lines 541–554).
Returns `(updates : portion × new amount, creates : userId × amount, deletes)`. -/
def reconcile (owner : String) (adjusted : List SplitShare) (existing : List Portion) :
    List (Portion × ℚ) × List (String × ℚ) × List Portion :=
  let qual := adjusted.filter (fun s => s.userId != "" && s.userId != owner)
  let r := reconcileFold qual (buildMap existing)
  (r.2.1, r.2.2, r.1)

/-- A persisted transaction document.  `splitInfo = []` models the field being
absent or `null`; `householdId`/`mainTransactionId` are absent when `none`;
`isSplitPortion` is only stored when true. -/
structure Txn where
  id : String
  amount : ℚ
  description : String
  date : String
  categoryId : String
  userId : String
  type : String
  householdId : Option String
  splitInfo : List SplitShare
  isSplitPortion : Bool
  mainTransactionId : Option String
deriving DecidableEq

/-- `getDoc` on the `transactions` collection: the document with the given id. -/
def getDocM (db : List Txn) (id : String) : Option Txn :=
  db.find? (fun d => d.id == id)

/-- The `Partial<Transaction>` argument of `updateTransaction`.  `none` models an
`undefined` field (left untouched); for `householdId`, `some none` models an
explicit falsy value (stored as `null`); for `splitInfo`, `some []` models an
empty/falsy value (stored as `null`, modelled `[]`). -/
structure UpdateData where
  amount : Option ℚ
  description : Option String
  date : Option String
  categoryId : Option String
  type : Option String
  householdId : Option (Option String)
  splitInfo : Option (List SplitShare)
deriving DecidableEq

/-- `data.amount || currentTransaction.amount` (`0` is falsy). -/
def jsOrQ (o : Option ℚ) (d : ℚ) : ℚ :=
  match o with
  | some a => if a = 0 then d else a
  | none => d

/-- `o || d` for a possibly-absent string field (`''` is falsy). -/
def jsOrS (o : Option String) (d : String) : String :=
  match o with
  | some s => if s = "" then d else s
  | none => d

/-- The `sanitizedData` record built by `updateTransaction` (lines 389–437),
field by field; `splitInfo` already carries the proportionally adjusted list
(lines 407–437). -/
structure SanitizedUpdate where
  amount : Option ℚ
  description : Option String
  date : Option String
  categoryId : Option String
  type : Option String
  householdId : Option (Option String)
  splitInfo : Option (List SplitShare)
deriving DecidableEq

/-- Lines 389–437 of `updateTransaction`: sanitize each supplied field.
`now` stands for `new Date().toISOString()`. -/
def sanitizeUpdate (data : UpdateData) (cur : Txn) (now : String) : SanitizedUpdate :=
  { amount := data.amount
    description := data.description.map (fun s => s.trim)
    date := data.date.map (fun s => if s = "" then now else s)
    categoryId := data.categoryId
    type := data.type.map (fun s => if s = "income" then "income" else "expense")
    householdId := data.householdId.map (fun h => if optTruthy h then h else none)
    splitInfo := data.splitInfo.map
      (fun l => if l = [] then [] else adjustSplitInfo (jsOrQ data.amount cur.amount) l) }

/-- `updateDoc(transactionRef, sanitizedData)` applied to one document:
every supplied field overwrites the stored one. -/
def applyFields (d : Txn) (sd : SanitizedUpdate) : Txn :=
  { d with
    amount := sd.amount.getD d.amount
    description := sd.description.getD d.description
    date := sd.date.getD d.date
    categoryId := sd.categoryId.getD d.categoryId
    type := sd.type.getD d.type
    householdId := match sd.householdId with | none => d.householdId | some h => h
    splitInfo := sd.splitInfo.getD d.splitInfo }

/-- The fields copied onto every split-portion write during reconciliation
(lines 505–512 and 517–529): `sanitizedData.X || currentTransaction.X` fallbacks. -/
structure PortionFields where
  description : String
  date : String
  categoryId : String
  type : String
deriving DecidableEq

/-- `sanitizedData.description || currentTransaction.description || ''` and the
analogous fallbacks for date, categoryId and type. -/
def portionFields (sd : SanitizedUpdate) (cur : Txn) : PortionFields :=
  { description := jsOrS sd.description cur.description
    date := jsOrS sd.date cur.date
    categoryId := jsOrS sd.categoryId cur.categoryId
    type := jsOrS sd.type cur.type }

/-- `updateTransaction` (`transactionStore.ts` lines 368–599) as a transition on
the persisted collection.  Returns the new collection and whether the operation
succeeded (`false` models the thrown-and-caught error that sets the store's
error state).  `freshIds` supplies the ids `addDoc` would generate for newly
created portions. -/
def updateTransaction (db : List Txn) (id : String) (data : UpdateData) (now : String)
    (freshIds : List String) : List Txn × Bool :=
  if id = "" then (db, false)
  else
    match getDocM db id with
    | none => (db, false)
    | some cur =>
      let sd := sanitizeUpdate data cur now
      let db1 := db.map (fun d => if d.id == id then applyFields d sd else d)
      match data.splitInfo with
      | some l =>
        if optTruthy cur.householdId && !l.isEmpty then
          let adjusted := adjustSplitInfo (jsOrQ data.amount cur.amount) l
          let existing := (db1.filter (fun d => d.mainTransactionId == some id && d.isSplitPortion)).map
            (fun d => ({ id := d.id, userId := d.userId } : Portion))
          let r := reconcile cur.userId adjusted existing
          let f := portionFields sd cur
          let db2 := r.1.foldl
            (fun acc pu => acc.map (fun d =>
              if d.id == pu.1.id then
                { d with amount := pu.2, description := f.description, date := f.date,
                         categoryId := f.categoryId, type := f.type }
              else d)) db1
          let newDocs := (r.2.1.zip (freshIds.take r.2.1.length)).map (fun cu =>
            ({ id := cu.2, amount := cu.1.2, description := f.description, date := f.date,
               categoryId := f.categoryId, userId := cu.1.1, type := f.type,
               householdId := cur.householdId, splitInfo := [], isSplitPortion := true,
               mainTransactionId := some id } : Txn))
          let db3 := db2 ++ newDocs
          (db3.filter (fun d => r.2.2.all (fun p => p.id != d.id)), true)
        else if optTruthy cur.householdId then
          (db1.filter (fun d => !(d.mainTransactionId == some id && d.isSplitPortion)), true)
        else (db1, true)
      | none =>
        if optTruthy cur.householdId then
          (db1.filter (fun d => !(d.mainTransactionId == some id && d.isSplitPortion)), true)
        else (db1, true)

/-- `deleteTransaction` (`transactionStore.ts` lines 601–667) as a transition on
the persisted collection: look the document up (abort with failure when absent),
cascade-delete split portions only when the document carries a truthy
`householdId` and a non-empty `splitInfo`, then delete the document itself. -/
def deleteTransaction (db : List Txn) (id : String) : List Txn × Bool :=
  if id = "" then (db, false)
  else
    match getDocM db id with
    | none => (db, false)
    | some t =>
      let db1 :=
        if optTruthy t.householdId && !t.splitInfo.isEmpty then
          db.filter (fun d => !(d.mainTransactionId == some id && d.isSplitPortion))
        else db
      (db1.filter (fun d => d.id != id), true)

/-! ### Concrete documents used to instantiate the theorems -/

/-- A main household transaction with a two-way split. -/
def exMainTxn : Txn :=
  ⟨"m", 100, "groceries", "2024-01-01", "cat", "o", "expense", some "h",
    [⟨"A", 40, 40⟩, ⟨"B", 60, 60⟩], false, none⟩

/-- Member A's split-portion document for `exMainTxn`. -/
def exPortionA : Txn :=
  ⟨"pa", 40, "groceries", "2024-01-01", "cat", "A", "expense", some "h", [], true, some "m"⟩

/-- Member B's split-portion document for `exMainTxn`. -/
def exPortionB : Txn :=
  ⟨"pb", 60, "groceries", "2024-01-01", "cat", "B", "expense", some "h", [], true, some "m"⟩

/-- A small persisted collection: one main transaction and its two portions. -/
def exDb : List Txn := [exMainTxn, exPortionA, exPortionB]

/-- A main household transaction without portions, used for the update example. -/
def exDb5 : List Txn := [⟨"m", 50, "d", "dt", "c", "o", "expense", some "h", [], false, none⟩]

/-- An update payload whose new split gives member `b` a zero amount. -/
def exData5 : UpdateData :=
  ⟨none, none, none, none, none, none, some [⟨"o", 50, 100⟩, ⟨"b", 0, 0⟩]⟩

/-! ### Helper lemmas -/

lemma abs_round2_sub_le (x : ℚ) : |round2 x - x| ≤ 1/200 := by
  unfold round2
  rw [abs_le]
  have h1 := Int.floor_le (x * 100 + 1/2)
  have h2 := Int.lt_floor_add_one (x * 100 + 1/2)
  constructor <;> [linarith; linarith]

lemma rawSum_nil : rawSum [] = 0 := rfl

lemma rawSum_cons (s : SplitShare) (l : List SplitShare) :
    rawSum (s :: l) = s.amount + rawSum l := by
  simp [rawSum]

/-- Summing independently rounded rescaled amounts drifts from the exact rescaled
sum by at most half a cent per entry. -/
lemma abs_rawSum_map_round2_sub_le (l : List SplitShare) (r : ℚ) :
    |rawSum (l.map (fun s => { s with amount := round2 (s.amount * r) })) - r * rawSum l|
      ≤ (l.length : ℚ) * (1/200) := by
  induction l with
  | nil => simp [rawSum]
  | cons s rest ih =>
    simp only [List.map_cons, rawSum_cons, List.length_cons]
    have h1 := abs_round2_sub_le (s.amount * r)
    have h3 : |round2 (s.amount * r) + rawSum (rest.map (fun s => { s with amount := round2 (s.amount * r) }))
        - r * (s.amount + rawSum rest)|
        ≤ |round2 (s.amount * r) - s.amount * r|
          + |rawSum (rest.map (fun s => { s with amount := round2 (s.amount * r) })) - r * rawSum rest| := by
      have := abs_add (round2 (s.amount * r) - s.amount * r)
        (rawSum (rest.map (fun s => { s with amount := round2 (s.amount * r) })) - r * rawSum rest)
      calc |round2 (s.amount * r) + rawSum (rest.map (fun s => { s with amount := round2 (s.amount * r) }))
          - r * (s.amount + rawSum rest)|
          = |(round2 (s.amount * r) - s.amount * r)
            + (rawSum (rest.map (fun s => { s with amount := round2 (s.amount * r) })) - r * rawSum rest)| := by
            congr 1
            ring
        _ ≤ _ := this
    have hlen : ((rest.length + 1 : ℕ) : ℚ) = (rest.length : ℚ) + 1 := by push_cast; ring
    rw [hlen]
    calc |round2 (s.amount * r) + rawSum (rest.map (fun s => { s with amount := round2 (s.amount * r) }))
        - r * (s.amount + rawSum rest)|
        ≤ |round2 (s.amount * r) - s.amount * r|
          + |rawSum (rest.map (fun s => { s with amount := round2 (s.amount * r) })) - r * rawSum rest| := h3
      _ ≤ 1/200 + (rest.length : ℚ) * (1/200) := add_le_add h1 ih
      _ = ((rest.length : ℚ) + 1) * (1/200) := by ring

lemma find?_filter_ne (m : List Portion) {u t : String} (h : u ≠ t) :
    (m.filter (fun q => q.userId != t)).find? (fun p => p.userId == u)
      = m.find? (fun p => p.userId == u) := by
  induction m with
  | nil => rfl
  | cons a rest ih =>
    by_cases ha : a.userId = t
    · have h1 : (a.userId != t) = false := by simp [ha]
      have h2 : (a.userId == u) = false := by simp [ha]; exact Ne.symm h
      simp [List.filter_cons, List.find?_cons, h1, h2, ih]
    · have h1 : (a.userId != t) = true := by simp [ha]
      by_cases hu : a.userId = u
      · simp [List.filter_cons, List.find?_cons, h1, hu, h]
      · have h2 : (a.userId == u) = false := by simp [hu]
        simp [List.filter_cons, List.find?_cons, h1, h2, ih]

lemma find?_userId_eq_some_of_nodup {m : List Portion} {p : Portion}
    (hnd : (m.map (fun q => q.userId)).Nodup) (hm : p ∈ m) :
    m.find? (fun q => q.userId == p.userId) = some p := by
  induction m with
  | nil => cases hm
  | cons a rest ih =>
    simp only [List.map_cons, List.nodup_cons] at hnd
    rcases List.mem_cons.mp hm with rfl | hm'
    · simp [List.find?_cons]
    · have ha : (a.userId == p.userId) = false := by
        simp only [beq_eq_false_iff_ne, ne_eq]
        intro he
        exact hnd.1 (he ▸ List.mem_map_of_mem _ hm')
      simp [List.find?_cons, ha, ih hnd.2 hm']

lemma buildMap_aux (l : List Portion) : ∀ acc : List Portion, (∀ p ∈ l, p.userId ≠ "") →
    (((acc ++ l).map (fun p => p.userId)).Nodup) →
    l.foldl (fun m p => if p.userId = "" then m else m.filter (fun q => q.userId != p.userId) ++ [p]) acc
      = acc ++ l := by
  induction l with
  | nil => intro acc _ _; simp
  | cons p rest ih =>
    intro acc hne hnd
    simp only [List.foldl_cons]
    rw [if_neg (hne p (List.mem_cons_self _ _))]
    have hq : ∀ q ∈ acc, q.userId ≠ p.userId := by
      intro q hq he
      rw [List.map_append, List.nodup_append] at hnd
      exact hnd.2.2 (List.mem_map_of_mem _ hq)
        (by simp only [List.map_cons]; exact he ▸ List.mem_cons_self _ _)
    have hfilter : acc.filter (fun q => q.userId != p.userId) = acc := by
      apply List.filter_eq_self.mpr
      intro q hmem
      simpa using hq q hmem
    rw [hfilter]
    have hres := ih (acc ++ [p]) (fun x hx => hne x (List.mem_cons_of_mem _ hx))
      (by simpa using hnd)
    simpa using hres

/-- With pairwise-distinct, truthy member ids the `existingSplitPortions` map is
just the portion list itself. -/
lemma buildMap_eq {existing : List Portion} (hne : ∀ p ∈ existing, p.userId ≠ "")
    (hnd : (existing.map (fun p => p.userId)).Nodup) :
    buildMap existing = existing := by
  have := buildMap_aux existing [] hne (by simpa using hnd)
  simpa [buildMap] using this

lemma reconcileFold_nil (m : List Portion) : reconcileFold [] m = (m, [], []) := rfl

lemma reconcileFold_cons_some {s : SplitShare} {rest : List SplitShare} {m : List Portion}
    {p : Portion} (hf : m.find? (fun q => q.userId == s.userId) = some p) :
    reconcileFold (s :: rest) m =
      ((reconcileFold rest (m.filter (fun q => q.userId != s.userId))).1,
       (p, s.amount) :: (reconcileFold rest (m.filter (fun q => q.userId != s.userId))).2.1,
       (reconcileFold rest (m.filter (fun q => q.userId != s.userId))).2.2) := by
  simp [reconcileFold, hf]

lemma reconcileFold_cons_none {s : SplitShare} {rest : List SplitShare} {m : List Portion}
    (hf : m.find? (fun q => q.userId == s.userId) = none) :
    reconcileFold (s :: rest) m =
      ((reconcileFold rest m).1,
       (reconcileFold rest m).2.1,
       (s.userId, s.amount) :: (reconcileFold rest m).2.2) := by
  simp [reconcileFold, hf]

lemma reconcileFold_rem_subset (qual : List SplitShare) (m : List Portion) :
    ∀ q ∈ (reconcileFold qual m).1, q ∈ m := by
  induction qual generalizing m with
  | nil => intro q hq; simpa [reconcileFold_nil] using hq
  | cons s rest ih =>
    intro q hq
    cases hf : m.find? (fun p => p.userId == s.userId) with
    | some p =>
      rw [reconcileFold_cons_some hf] at hq
      exact List.mem_of_mem_filter (ih _ q hq)
    | none =>
      rw [reconcileFold_cons_none hf] at hq
      exact ih m q hq

/-- A qualifying share whose member is found in the map yields an in-place update
of that very portion, carrying the share's amount. -/
lemma reconcileFold_mem_updates {qual : List SplitShare} {m : List Portion} {s : SplitShare}
    {p : Portion} (hnd : (qual.map (fun x => x.userId)).Nodup) (hs : s ∈ qual)
    (hf : m.find? (fun q => q.userId == s.userId) = some p) :
    (p, s.amount) ∈ (reconcileFold qual m).2.1 := by
  induction qual generalizing m with
  | nil => cases hs
  | cons t rest ih =>
    simp only [List.map_cons, List.nodup_cons] at hnd
    rcases List.mem_cons.mp hs with rfl | hs'
    · rw [reconcileFold_cons_some hf]
      exact List.mem_cons_self _ _
    · have hts : t.userId ≠ s.userId := by
        intro he
        exact hnd.1 (he ▸ List.mem_map_of_mem _ hs')
      cases hft : m.find? (fun q => q.userId == t.userId) with
      | some q =>
        rw [reconcileFold_cons_some hft]
        apply List.mem_cons_of_mem
        apply ih hnd.2 hs'
        rw [find?_filter_ne _ (Ne.symm hts)]
        exact hf
      | none =>
        rw [reconcileFold_cons_none hft]
        exact ih hnd.2 hs' hf

/-- A qualifying share whose member has no portion in the map yields a create,
regardless of the share's amount. -/
lemma reconcileFold_mem_creates {qual : List SplitShare} {m : List Portion} {s : SplitShare}
    (hs : s ∈ qual) (hnone : ∀ p ∈ m, p.userId ≠ s.userId) :
    (s.userId, s.amount) ∈ (reconcileFold qual m).2.2 := by
  induction qual generalizing m with
  | nil => cases hs
  | cons t rest ih =>
    rcases List.mem_cons.mp hs with rfl | hs'
    · have hf : m.find? (fun q => q.userId == s.userId) = none :=
        List.find?_eq_none.mpr (fun p hp => by simp [hnone p hp])
      rw [reconcileFold_cons_none hf]
      exact List.mem_cons_self _ _
    · cases hft : m.find? (fun q => q.userId == t.userId) with
      | some q =>
        rw [reconcileFold_cons_some hft]
        exact ih hs' (fun p hp => hnone p (List.mem_of_mem_filter hp))
      | none =>
        rw [reconcileFold_cons_none hft]
        exact List.mem_cons_of_mem _ (ih hs' hnone)

/-- No portion left over for deletion belongs to a member of a qualifying share. -/
lemma reconcileFold_rem_userId_ne {qual : List SplitShare} {m : List Portion} {s : SplitShare}
    {q : Portion} (hs : s ∈ qual) (hq : q ∈ (reconcileFold qual m).1) :
    q.userId ≠ s.userId := by
  induction qual generalizing m with
  | nil => cases hs
  | cons t rest ih =>
    rcases List.mem_cons.mp hs with rfl | hs'
    · cases hft : m.find? (fun p => p.userId == s.userId) with
      | some p =>
        rw [reconcileFold_cons_some hft] at hq
        have hmem := reconcileFold_rem_subset _ _ q hq
        simpa using (List.mem_filter.mp hmem).2
      | none =>
        rw [reconcileFold_cons_none hft] at hq
        have hmem := reconcileFold_rem_subset _ _ q hq
        have := List.find?_eq_none.mp hft q hmem
        simpa using this
    · cases hft : m.find? (fun p => p.userId == t.userId) with
      | some p =>
        rw [reconcileFold_cons_some hft] at hq
        exact ih hs' hq
      | none =>
        rw [reconcileFold_cons_none hft] at hq
        exact ih hs' hq

/-- A portion whose member matches no qualifying share survives to the delete pass. -/
lemma reconcileFold_mem_rem {qual : List SplitShare} {m : List Portion} {q : Portion}
    (hq : q ∈ m) (h : ∀ s ∈ qual, s.userId ≠ q.userId) :
    q ∈ (reconcileFold qual m).1 := by
  induction qual generalizing m with
  | nil => simpa [reconcileFold_nil] using hq
  | cons t rest ih =>
    cases hft : m.find? (fun p => p.userId == t.userId) with
    | some p =>
      rw [reconcileFold_cons_some hft]
      apply ih _ (fun s hs => h s (List.mem_cons_of_mem _ hs))
      exact List.mem_filter.mpr ⟨hq, by simp [Ne.symm (h t (List.mem_cons_self _ _))]⟩
    | none =>
      rw [reconcileFold_cons_none hft]
      exact ih hq (fun s hs => h s (List.mem_cons_of_mem _ hs))

/-- Every recorded update originates from a qualifying share whose member the
updated portion carries. -/
lemma reconcileFold_updates_sound {qual : List SplitShare} {m : List Portion}
    {pu : Portion × ℚ} (hpu : pu ∈ (reconcileFold qual m).2.1) :
    ∃ s ∈ qual, pu.1.userId = s.userId ∧ pu.2 = s.amount := by
  induction qual generalizing m with
  | nil => simp [reconcileFold_nil] at hpu
  | cons t rest ih =>
    cases hft : m.find? (fun p => p.userId == t.userId) with
    | some p =>
      rw [reconcileFold_cons_some hft] at hpu
      rcases List.mem_cons.mp hpu with rfl | hpu'
      · refine ⟨t, List.mem_cons_self _ _, ?_, rfl⟩
        have := List.find?_some hft
        simpa using this
      · obtain ⟨s, hs, h1, h2⟩ := ih hpu'
        exact ⟨s, List.mem_cons_of_mem _ hs, h1, h2⟩
    | none =>
      rw [reconcileFold_cons_none hft] at hpu
      obtain ⟨s, hs, h1, h2⟩ := ih hpu
      exact ⟨s, List.mem_cons_of_mem _ hs, h1, h2⟩

/-- Every recorded create originates from a qualifying share. -/
lemma reconcileFold_creates_sound {qual : List SplitShare} {m : List Portion}
    {cu : String × ℚ} (hcu : cu ∈ (reconcileFold qual m).2.2) :
    ∃ s ∈ qual, cu.1 = s.userId ∧ cu.2 = s.amount := by
  induction qual generalizing m with
  | nil => simp [reconcileFold_nil] at hcu
  | cons t rest ih =>
    cases hft : m.find? (fun p => p.userId == t.userId) with
    | some p =>
      rw [reconcileFold_cons_some hft] at hcu
      obtain ⟨s, hs, h1, h2⟩ := ih hcu
      exact ⟨s, List.mem_cons_of_mem _ hs, h1, h2⟩
    | none =>
      rw [reconcileFold_cons_none hft] at hcu
      rcases List.mem_cons.mp hcu with rfl | hcu'
      · exact ⟨t, List.mem_cons_self _ _, rfl, rfl⟩
      · obtain ⟨s, hs, h1, h2⟩ := ih hcu'
        exact ⟨s, List.mem_cons_of_mem _ hs, h1, h2⟩

lemma reconcile_def (owner : String) (adjusted : List SplitShare) (existing : List Portion) :
    reconcile owner adjusted existing =
      ((reconcileFold (adjusted.filter (fun s => s.userId != "" && s.userId != owner))
          (buildMap existing)).2.1,
       (reconcileFold (adjusted.filter (fun s => s.userId != "" && s.userId != owner))
          (buildMap existing)).2.2,
       (reconcileFold (adjusted.filter (fun s => s.userId != "" && s.userId != owner))
          (buildMap existing)).1) := rfl

/-! ### Claim theorems -/

/-- Claim C9 (confirmed): when no transaction with the given id exists,
`updateTransaction` and `deleteTransaction` perform no writes at all — the
persisted collection is returned exactly as it was — and the operation reports
failure (the thrown "Transaction not found" error, caught and surfaced as the
store's error state). -/
theorem C9_not_found_no_writes (db : List Txn) (id : String) (data : UpdateData)
    (now : String) (freshIds : List String) (h : getDocM db id = none) :
    updateTransaction db id data now freshIds = (db, false) ∧
      deleteTransaction db id = (db, false) := by
  constructor
  · unfold updateTransaction
    by_cases hid : id = ""
    · simp [hid]
    · simp [hid, h]
  · unfold deleteTransaction
    by_cases hid : id = ""
    · simp [hid]
    · simp [hid, h]

/-- Witness for C9: updating or deleting the absent id "zz" in a concrete
collection leaves it untouched and fails. -/
theorem C9_witness :
    updateTransaction exDb "zz" exData5 "now" [] = (exDb, false) ∧
      deleteTransaction exDb "zz" = (exDb, false) :=
  C9_not_found_no_writes exDb "zz" exData5 "now" [] (by rfl)

/-- Claim C10 (confirmed): deleting a split-portion transaction (no `splitInfo`
of its own) is permitted and deletes exactly that one document; every other
document — the referenced main transaction, sibling portions, anything else —
survives, because the cascade branch requires a non-empty `splitInfo`. -/
theorem C10_delete_portion (db : List Txn) (id : String) (t : Txn)
    (hid : id ≠ "") (hget : getDocM db id = some t)
    (hport : t.isSplitPortion = true) (hsplit : t.splitInfo = []) :
    deleteTransaction db id = (db.filter (fun d => d.id != id), true) ∧
      ∀ d ∈ db, d.id ≠ id → d ∈ (deleteTransaction db id).1 := by
  have hmain : deleteTransaction db id = (db.filter (fun d => d.id != id), true) := by
    unfold deleteTransaction
    simp [hid, hget, hsplit]
  refine ⟨hmain, ?_⟩
  intro d hd hne
  rw [hmain]
  exact List.mem_filter.mpr ⟨hd, by simp [hne]⟩

/-- Witness for C10: deleting portion "pa" from the concrete collection removes
only that document; the main transaction and the sibling portion survive. -/
theorem C10_witness :
    deleteTransaction exDb "pa" = (exDb.filter (fun d => d.id != "pa"), true) ∧
      ∀ d ∈ exDb, d.id ≠ "pa" → d ∈ (deleteTransaction exDb "pa").1 :=
  C10_delete_portion exDb "pa" exPortionA (by decide) (by rfl) (by rfl) (by rfl)

/-- Claim C4 (confirmed): no split portion is ever created or updated for the
member equal to the transaction's owner — in `addTransaction` the create filter
requires `split.userId !== transaction.userId`, and in `updateTransaction` only
qualifying (non-owner) shares produce updates or creates. -/
theorem C4_owner_never_written (t : TxnInput) (owner : String)
    (adjusted : List SplitShare) (existing : List Portion) :
    (∀ s ∈ addPortionCreates t, s.userId ≠ t.userId) ∧
    (∀ pu ∈ (reconcile owner adjusted existing).1, pu.1.userId ≠ owner) ∧
    (∀ cu ∈ (reconcile owner adjusted existing).2.1, cu.1 ≠ owner) := by
  refine ⟨?_, ?_, ?_⟩
  · intro s hs
    have h := (List.mem_filter.mp hs).2
    simp only [Bool.and_eq_true, bne_iff_ne, ne_eq, decide_eq_true_eq] at h
    exact h.1.2
  · intro pu hpu
    rw [reconcile_def] at hpu
    obtain ⟨s, hs, h1, _⟩ := reconcileFold_updates_sound hpu
    have h := (List.mem_filter.mp hs).2
    simp only [Bool.and_eq_true, bne_iff_ne, ne_eq] at h
    rw [h1]
    exact h.2
  · intro cu hcu
    rw [reconcile_def] at hcu
    obtain ⟨s, hs, h1, _⟩ := reconcileFold_creates_sound hcu
    have h := (List.mem_filter.mp hs).2
    simp only [Bool.and_eq_true, bne_iff_ne, ne_eq] at h
    rw [h1]
    exact h.2

/-- Witness for C4: a concrete create produced by `addTransaction`'s plan and a
concrete update produced by reconciliation both target a non-owner member. -/
theorem C4_witness :
    ((⟨"b", 100, 100⟩ : SplitShare) ∈
        addPortionCreates ⟨100, "d", "dt", "c", "o", "expense", some "h", [⟨"b", 100, 100⟩]⟩ ∧
      (⟨"b", 100, 100⟩ : SplitShare).userId ≠ "o") ∧
    ((⟨"pb", "b"⟩, (70 : ℚ)) ∈ (reconcile "o" [⟨"b", 70, 70⟩] [⟨"pb", "b"⟩]).1 ∧
      (⟨"pb", "b"⟩ : Portion).userId ≠ "o") := by
  have hmem : (⟨"b", 100, 100⟩ : SplitShare) ∈
      addPortionCreates ⟨100, "d", "dt", "c", "o", "expense", some "h", [⟨"b", 100, 100⟩]⟩ := by
    simp [addPortionCreates, adjustSplitInfo, rawSum]
    norm_num [round2]
  have hmem2 : ((⟨"pb", "b"⟩, (70 : ℚ)) ∈ (reconcile "o" [⟨"b", 70, 70⟩] [⟨"pb", "b"⟩]).1) := by
    simp [reconcile_def, buildMap, reconcileFold]
  exact ⟨⟨hmem, (C4_owner_never_written ⟨100, "d", "dt", "c", "o", "expense", some "h",
      [⟨"b", 100, 100⟩]⟩ "o" [] []).1 _ hmem⟩,
    ⟨hmem2, (C4_owner_never_written ⟨100, "d", "dt", "c", "o", "expense", some "h",
      [⟨"b", 100, 100⟩]⟩ "o" [⟨"b", 70, 70⟩] [⟨"pb", "b"⟩]).2.1 _ hmem2⟩⟩

/-- Claim C2 (confirmed): in `updateTransaction` reconciliation, every qualifying
(non-owner, truthy-id) share whose member already has a portion yields an
in-place update of that very document (same id) with the share's amount — the
uniform `portionFields` (description/date/category/type) are attached at write
time in `updateTransaction` — and the portion is not deleted; every qualifying
share without an existing portion yields a create; and every existing portion
whose member appears in no share of the new splitInfo is deleted. -/
theorem C2_reconciliation (owner : String) (adjusted : List SplitShare)
    (existing : List Portion)
    (hndA : (adjusted.map (fun s => s.userId)).Nodup)
    (hndE : (existing.map (fun p => p.userId)).Nodup)
    (hneE : ∀ p ∈ existing, p.userId ≠ "") :
    (∀ s ∈ adjusted, s.userId ≠ "" → s.userId ≠ owner →
      ∀ p ∈ existing, p.userId = s.userId →
        (p, s.amount) ∈ (reconcile owner adjusted existing).1 ∧
          p ∉ (reconcile owner adjusted existing).2.2) ∧
    (∀ s ∈ adjusted, s.userId ≠ "" → s.userId ≠ owner →
      (∀ p ∈ existing, p.userId ≠ s.userId) →
        (s.userId, s.amount) ∈ (reconcile owner adjusted existing).2.1) ∧
    (∀ p ∈ existing, (∀ s ∈ adjusted, s.userId ≠ p.userId) →
      p ∈ (reconcile owner adjusted existing).2.2) := by
  have hmap := buildMap_eq hneE hndE
  have hqual : ((adjusted.filter (fun s => s.userId != "" && s.userId != owner)).map
      (fun s => s.userId)).Nodup :=
    ((List.filter_sublist _).map _).nodup hndA
  refine ⟨?_, ?_, ?_⟩
  · intro s hs hs1 hs2 p hp hpu
    have hsq : s ∈ adjusted.filter (fun x => x.userId != "" && x.userId != owner) :=
      List.mem_filter.mpr ⟨hs, by simp [hs1, hs2]⟩
    have hfind : (buildMap existing).find? (fun q => q.userId == s.userId) = some p := by
      rw [hmap, ← hpu]
      exact find?_userId_eq_some_of_nodup hndE hp
    constructor
    · rw [reconcile_def]
      exact reconcileFold_mem_updates hqual hsq hfind
    · rw [reconcile_def]
      intro hpd
      exact (reconcileFold_rem_userId_ne hsq hpd) hpu
  · intro s hs hs1 hs2 hnone
    have hsq : s ∈ adjusted.filter (fun x => x.userId != "" && x.userId != owner) :=
      List.mem_filter.mpr ⟨hs, by simp [hs1, hs2]⟩
    rw [reconcile_def]
    apply reconcileFold_mem_creates hsq
    intro p hp
    rw [hmap] at hp
    exact hnone p hp
  · intro p hp h
    rw [reconcile_def]
    apply reconcileFold_mem_rem
    · rw [hmap]; exact hp
    · intro s hsq
      exact h s (List.mem_of_mem_filter hsq)

/-- Witness for C2: with existing portions {A: 40, B: 60} and new split
{B: 70, C: 30}, B's portion is updated in place to 70 (and not deleted), C's
portion is created at 30, and A's portion is deleted. -/
theorem C2_witness :
    ((⟨"pb", "B"⟩, (70 : ℚ)) ∈
        (reconcile "o" [⟨"B", 70, 70⟩, ⟨"C", 30, 30⟩] [⟨"pa", "A"⟩, ⟨"pb", "B"⟩]).1 ∧
      (⟨"pb", "B"⟩ : Portion) ∉
        (reconcile "o" [⟨"B", 70, 70⟩, ⟨"C", 30, 30⟩] [⟨"pa", "A"⟩, ⟨"pb", "B"⟩]).2.2) ∧
    ("C", (30 : ℚ)) ∈
      (reconcile "o" [⟨"B", 70, 70⟩, ⟨"C", 30, 30⟩] [⟨"pa", "A"⟩, ⟨"pb", "B"⟩]).2.1 ∧
    (⟨"pa", "A"⟩ : Portion) ∈
      (reconcile "o" [⟨"B", 70, 70⟩, ⟨"C", 30, 30⟩] [⟨"pa", "A"⟩, ⟨"pb", "B"⟩]).2.2 := by
  have h := C2_reconciliation "o" [⟨"B", 70, 70⟩, ⟨"C", 30, 30⟩] [⟨"pa", "A"⟩, ⟨"pb", "B"⟩]
    (by decide) (by decide) (by decide)
  refine ⟨h.1 ⟨"B", 70, 70⟩ (by simp) (by decide) (by decide) ⟨"pb", "B"⟩ (by simp) rfl,
    h.2.1 ⟨"C", 30, 30⟩ (by simp) (by decide) (by decide) (by decide),
    h.2.2 ⟨"pa", "A"⟩ (by simp) ?_⟩
  intro s hs
  fin_cases hs <;> decide

lemma sum_map_const {α : Type} (l : List α) (c : ℚ) :
    (l.map (fun _ => c)).sum = (l.length : ℚ) * c := by
  induction l with
  | nil => simp
  | cons a rest ih =>
    simp only [List.map_cons, List.sum_cons, List.length_cons, ih]
    push_cast
    ring

/-- Claim C1 (corrected): the persisted main document's splitInfo sum need not be
within 1 cent of the amount.  `addTransaction` writes the *raw* (sanitized)
shares to the main document — only the portion documents receive rescaled
amounts — so its stored sum is the raw sum; `updateTransaction` does persist the
rescaled list, whose amounts are `round2(amount_i * ratio)`, and after a rescale
the stored sum is within `n * 0.005` of `ratio * rawSum` (with
`ratio = round2(amount)/denom`, `denom = round2(rawSum)` or 1 when that is 0);
without a rescale the supplied amounts are stored unchanged. -/
theorem C1_stored_splitInfo_sums (t : TxnInput) (amountRaw : ℚ) (splits : List SplitShare) :
    (addStoredSplitInfo t = t.splitInfo.filter (fun s => s.userId != "")) ∧
    (|round2 amountRaw - round2 (rawSum splits)| ≤ 1/100 →
      adjustSplitInfo amountRaw splits = splits) ∧
    (1/100 < |round2 amountRaw - round2 (rawSum splits)| →
      |rawSum (adjustSplitInfo amountRaw splits) -
          (round2 amountRaw /
            (if round2 (rawSum splits) = 0 then 1 else round2 (rawSum splits))) * rawSum splits|
        ≤ (splits.length : ℚ) * (1/200)) := by
  refine ⟨?_, ?_, ?_⟩
  · unfold addStoredSplitInfo
    by_cases h : t.splitInfo = []
    · simp [h]
    · simp [h]
  · intro h
    unfold adjustSplitInfo
    rw [if_neg (not_lt.mpr h)]
  · intro h
    unfold adjustSplitInfo
    rw [if_pos h]
    exact abs_rawSum_map_round2_sub_le splits _

/-- Witness for C1: at total 100 with supplied shares 30 + 30 the rescale branch
fires and the rescaled stored sum is within 2 × 0.005 of (100/60) × 60. -/
theorem C1_witness :
    1/100 < |round2 100 - round2 (rawSum [⟨"A", 30, 30⟩, ⟨"B", 30, 30⟩])| ∧
    |rawSum (adjustSplitInfo 100 [⟨"A", 30, 30⟩, ⟨"B", 30, 30⟩]) -
        (round2 100 /
          (if round2 (rawSum [⟨"A", 30, 30⟩, ⟨"B", 30, 30⟩]) = 0 then 1
           else round2 (rawSum [⟨"A", 30, 30⟩, ⟨"B", 30, 30⟩]))) *
          rawSum [⟨"A", 30, 30⟩, ⟨"B", 30, 30⟩]|
      ≤ (([⟨"A", 30, 30⟩, ⟨"B", 30, 30⟩] : List SplitShare).length : ℚ) * (1/200) := by
  have hcond : 1/100 < |round2 100 - round2 (rawSum [⟨"A", 30, 30⟩, ⟨"B", 30, 30⟩])| := by
    simp [rawSum]
    norm_num [round2]
  exact ⟨hcond,
    (C1_stored_splitInfo_sums ⟨100, "d", "dt", "c", "o", "expense", some "h", []⟩
      100 [⟨"A", 30, 30⟩, ⟨"B", 30, 30⟩]).2.2 hcond⟩

/-- Counterexample for C1 as stated: creating a household transaction of amount
100 with supplied shares 30 + 30 persists a main document whose splitInfo
amounts sum to 60, which is not within 0.01 of 100. -/
theorem C1_counterexample :
    rawSum (addStoredSplitInfo
        ⟨100, "groceries", "2024-01-01", "cat", "o", "expense", some "h",
          [⟨"A", 30, 30⟩, ⟨"B", 30, 30⟩]⟩) = 60 ∧
    ¬(|rawSum (addStoredSplitInfo
        ⟨100, "groceries", "2024-01-01", "cat", "o", "expense", some "h",
          [⟨"A", 30, 30⟩, ⟨"B", 30, 30⟩]⟩) - 100| ≤ 1/100) := by
  have h : rawSum (addStoredSplitInfo
      ⟨100, "groceries", "2024-01-01", "cat", "o", "expense", some "h",
        [⟨"A", 30, 30⟩, ⟨"B", 30, 30⟩]⟩) = 60 := by
    simp [addStoredSplitInfo, rawSum]
    norm_num
  refine ⟨h, ?_⟩
  rw [h]
  norm_num

/-- Claim C3 (corrected): if the rounded raw sum is within 0.01 of the rounded
total the supplied amounts are used unchanged; otherwise every amount is
replaced by `round2(amount_i * totalAmount / denom)` where the denominator is
the raw sum *rounded to 2 decimals* (`roundedSplitAmount`, replaced by 1 when
0), not the raw sum itself as the claim stated. -/
theorem C3_rescale_formula (amountRaw : ℚ) (splits : List SplitShare) :
    (|round2 amountRaw - round2 (rawSum splits)| ≤ 1/100 →
      adjustSplitInfo amountRaw splits = splits) ∧
    (1/100 < |round2 amountRaw - round2 (rawSum splits)| →
      adjustSplitInfo amountRaw splits = splits.map (fun s =>
        { s with amount := round2 (s.amount * (round2 amountRaw /
            (if round2 (rawSum splits) = 0 then 1 else round2 (rawSum splits)))) })) := by
  constructor
  · intro h
    unfold adjustSplitInfo
    rw [if_neg (not_lt.mpr h)]
  · intro h
    unfold adjustSplitInfo
    rw [if_pos h]

/-- Witness for C3: at total 100 with shares 30 + 30 the rescale fires with
denominator round2(60) = 60, producing 50 and 50. -/
theorem C3_witness :
    1/100 < |round2 100 - round2 (rawSum [⟨"A", 30, 30⟩, ⟨"B", 30, 30⟩])| ∧
    adjustSplitInfo 100 [⟨"A", 30, 30⟩, ⟨"B", 30, 30⟩] =
      ([⟨"A", 30, 30⟩, ⟨"B", 30, 30⟩] : List SplitShare).map (fun s =>
        { s with amount := round2 (s.amount * (round2 100 /
            (if round2 (rawSum [⟨"A", 30, 30⟩, ⟨"B", 30, 30⟩]) = 0 then 1
             else round2 (rawSum [⟨"A", 30, 30⟩, ⟨"B", 30, 30⟩])))) }) := by
  have hcond : 1/100 < |round2 100 - round2 (rawSum [⟨"A", 30, 30⟩, ⟨"B", 30, 30⟩])| := by
    simp [rawSum]
    norm_num [round2]
  exact ⟨hcond, (C3_rescale_formula 100 [⟨"A", 30, 30⟩, ⟨"B", 30, 30⟩]).2 hcond⟩

/-- Counterexample for C3 as stated: for total 1000 and the single share 1.004,
the code divides by round2(1.004) = 1 and stores 1004, while the claimed formula
`round2(amount_i * totalAmount / rawSum)` gives 1000. -/
theorem C3_counterexample :
    (adjustSplitInfo 1000 [⟨"u", 251/250, 100⟩]).map (fun s => s.amount) = [1004] ∧
    round2 ((251/250) * (round2 1000 / rawSum [⟨"u", 251/250, 100⟩])) = 1000 ∧
    ¬(|round2 1000 - round2 (rawSum [⟨"u", 251/250, 100⟩])| ≤ 1/100) ∧
    (1004 : ℚ) ≠ 1000 := by
  refine ⟨?_, ?_, ?_, by norm_num⟩
  · simp [adjustSplitInfo, rawSum]
    norm_num [round2]
  · simp [rawSum]
    norm_num [round2]
  · simp [rawSum]
    norm_num [round2]

/-- Claim C6 (corrected): percentages are *not* recomputed from the rescaled
amounts; at all three rescaling sites (the main document written by
`addTransaction`, the adjusted list persisted by `updateTransaction`, and the
form's `onSubmit`) each stored percentage is exactly the supplied one, carried
through unchanged by the spread `{...split}`. -/
theorem C6_percentages_carried_over (t : TxnInput) (amountRaw : ℚ) (l : List SplitShare)
    (amount : ℚ) (ms : List SplitMember) :
    ((addStoredSplitInfo t).map (fun s => s.percentage) =
      (t.splitInfo.filter (fun s => s.userId != "")).map (fun s => s.percentage)) ∧
    ((adjustSplitInfo amountRaw l).map (fun s => s.percentage) =
      l.map (fun s => s.percentage)) ∧
    ((onSubmitSplitInfo amount ms).map (fun s => s.percentage) =
      ms.map (fun m => m.percentage)) := by
  refine ⟨?_, ?_, ?_⟩
  · unfold addStoredSplitInfo
    by_cases h : t.splitInfo = []
    · simp [h]
    · simp [h]
  · unfold adjustSplitInfo
    by_cases h : 1/100 < |round2 amountRaw - round2 (rawSum l)|
    · rw [if_pos h, List.map_map]
      rfl
    · rw [if_neg h]
  · simp only [onSubmitSplitInfo]
    by_cases h : 1/100 < |(ms.map (fun m => m.amount)).sum - amount|
    · rw [if_pos h, List.map_map, List.map_map]
      rfl
    · rw [if_neg h, List.map_map]
      rfl

/-- Counterexample for C6 as stated: rescaling shares 10 + 30 against total 100
multiplies the amounts by 2.5 (giving 25 and 75) but stores the supplied
percentages 10 and 30, while `round2(25 / 100 × 100) = 25`. -/
theorem C6_counterexample :
    adjustSplitInfo 100 [⟨"u1", 10, 10⟩, ⟨"u2", 30, 30⟩] =
      [⟨"u1", 25, 10⟩, ⟨"u2", 75, 30⟩] ∧
    ¬((10 : ℚ) = round2 (25 / 100 * 100)) := by
  constructor
  · norm_num [adjustSplitInfo, rawSum, round2]
  · norm_num [round2]

/-- Claim C7 (corrected): when the *rounded* raw sum is 0 (and differs from the
total by more than 0.01), the guard `roundedSplitAmount || 1` replaces the
*denominator* by 1, so the ratio equals the rounded total amount itself — not 1 —
and every amount becomes `round2(amount_i * round2(totalAmount))`. -/
theorem C7_zero_sum_ratio (amountRaw : ℚ) (splits : List SplitShare)
    (h0 : round2 (rawSum splits) = 0)
    (h1 : 1/100 < |round2 amountRaw - round2 (rawSum splits)|) :
    adjustSplitInfo amountRaw splits =
      splits.map (fun s => { s with amount := round2 (s.amount * round2 amountRaw) }) := by
  unfold adjustSplitInfo
  rw [if_pos h1]
  simp [h0]

/-- Witness for C7: shares 5 and −5 (raw sum 0) against total 10 get multiplied
by ratio 10, not 1. -/
theorem C7_witness :
    round2 (rawSum [⟨"a", 5, 50⟩, ⟨"b", -5, -50⟩]) = 0 ∧
    1/100 < |round2 10 - round2 (rawSum [⟨"a", 5, 50⟩, ⟨"b", -5, -50⟩])| ∧
    adjustSplitInfo 10 [⟨"a", 5, 50⟩, ⟨"b", -5, -50⟩] =
      ([⟨"a", 5, 50⟩, ⟨"b", -5, -50⟩] : List SplitShare).map (fun s =>
        { s with amount := round2 (s.amount * round2 10) }) := by
  have h0 : round2 (rawSum [⟨"a", 5, 50⟩, ⟨"b", -5, -50⟩]) = 0 := by
    simp [rawSum]
    norm_num [round2]
  have h1 : 1/100 < |round2 10 - round2 (rawSum [⟨"a", 5, 50⟩, ⟨"b", -5, -50⟩])| := by
    simp [rawSum]
    norm_num [round2]
  exact ⟨h0, h1, C7_zero_sum_ratio 10 [⟨"a", 5, 50⟩, ⟨"b", -5, -50⟩] h0 h1⟩

/-- Counterexample for C7 as stated: with raw sum 0 and total 10, the amounts do
not pass through unchanged — 5 and −5 become 50 and −50. -/
theorem C7_counterexample :
    rawSum [⟨"a", 5, 50⟩, ⟨"b", -5, -50⟩] = 0 ∧
    (adjustSplitInfo 10 [⟨"a", 5, 50⟩, ⟨"b", -5, -50⟩]).map (fun s => s.amount) =
      [50, -50] ∧
    adjustSplitInfo 10 [⟨"a", 5, 50⟩, ⟨"b", -5, -50⟩] ≠ [⟨"a", 5, 50⟩, ⟨"b", -5, -50⟩] := by
  have h2 : (adjustSplitInfo 10 [⟨"a", 5, 50⟩, ⟨"b", -5, -50⟩]).map (fun s => s.amount) =
      [50, -50] := by
    simp [adjustSplitInfo, rawSum]
    norm_num [round2]
  refine ⟨by simp [rawSum], h2, ?_⟩
  intro he
  rw [he] at h2
  simp at h2

lemma createSplitMembers_eq (T : ℚ) (members : List String) (hne : members ≠ []) :
    createSplitMembers T members = members.map (fun m =>
      ⟨m, m, toFixed2 (T / members.length), toFixed2 (100 / members.length)⟩) := by
  have hN : (0 : ℚ) < members.length := by
    have h := List.length_pos.mpr hne
    exact_mod_cast h
  unfold createSplitMembers
  rw [if_neg hne]
  simp only [if_pos hN]

/-- Claim C8 (corrected): for N ≥ 1 members and total T ≥ 0, every share's
amount is `round2(T/N)` and its percentage is `round2(100/N)`, but the sum of
the N share amounts is only within `N × 0.005` of T — not within 0.01, since
each share is rounded independently and the residual is not redistributed. -/
theorem C8_equal_split (T : ℚ) (members : List String) (hT : 0 ≤ T) (hne : members ≠ []) :
    (∀ x ∈ createSplitMembers T members,
      x.amount = round2 (T / members.length) ∧
        x.percentage = round2 (100 / members.length)) ∧
    |((createSplitMembers T members).map (fun x => x.amount)).sum - T|
      ≤ (members.length : ℚ) * (1/200) := by
  have hN : (0 : ℚ) < members.length := by
    have h := List.length_pos.mpr hne
    exact_mod_cast h
  have hNne : (members.length : ℚ) ≠ 0 := ne_of_gt hN
  have hamt : toFixed2 (T / members.length) = round2 (T / members.length) := by
    unfold toFixed2
    rw [if_pos (div_nonneg hT (le_of_lt hN))]
  have hpct : toFixed2 (100 / members.length) = round2 (100 / members.length) := by
    unfold toFixed2
    rw [if_pos (div_nonneg (by norm_num) (le_of_lt hN))]
  constructor
  · intro x hx
    rw [createSplitMembers_eq T members hne] at hx
    obtain ⟨m, _, rfl⟩ := List.mem_map.mp hx
    exact ⟨hamt, hpct⟩
  · have hmap : (createSplitMembers T members).map (fun x => x.amount)
        = members.map (fun _ => round2 (T / members.length)) := by
      rw [createSplitMembers_eq T members hne, List.map_map, hamt]
      rfl
    rw [hmap, sum_map_const]
    have hTN : (members.length : ℚ) * (T / members.length) = T := by
      field_simp
    have h1 := abs_round2_sub_le (T / members.length)
    calc |(members.length : ℚ) * round2 (T / members.length) - T|
        = |(members.length : ℚ) * (round2 (T / members.length) - T / members.length)| := by
          rw [mul_sub, hTN]
      _ = (members.length : ℚ) * |round2 (T / members.length) - T / members.length| := by
          rw [abs_mul, abs_of_pos hN]
      _ ≤ (members.length : ℚ) * (1/200) :=
          mul_le_mul_of_nonneg_left h1 (le_of_lt hN)

/-- Witness for C8: for T = 100 over three members, each share is
round2(100/3) = 33.33 and the sum 99.99 is within 3 × 0.005 of 100. -/
theorem C8_witness :
    (∀ x ∈ createSplitMembers 100 ["a", "b", "c"],
      x.amount = round2 (100 / (["a", "b", "c"] : List String).length) ∧
        x.percentage = round2 (100 / (["a", "b", "c"] : List String).length)) ∧
    |((createSplitMembers 100 ["a", "b", "c"]).map (fun x => x.amount)).sum - 100|
      ≤ ((["a", "b", "c"] : List String).length : ℚ) * (1/200) :=
  C8_equal_split 100 ["a", "b", "c"] (by norm_num) (by simp)

/-- Counterexample for C8 as stated: for T = 0.06 and four members, every share
is round2(0.015) = 0.02, so the sum is 0.08, which is not within 0.01 of 0.06. -/
theorem C8_counterexample :
    ((createSplitMembers (6/100) ["a", "b", "c", "d"]).map (fun x => x.amount)).sum = 8/100 ∧
    ¬(|((createSplitMembers (6/100) ["a", "b", "c", "d"]).map (fun x => x.amount)).sum
        - 6/100| ≤ 1/100) := by
  have h : ((createSplitMembers (6/100) ["a", "b", "c", "d"]).map (fun x => x.amount)).sum
      = 8/100 := by
    simp [createSplitMembers, toFixed2]
    norm_num [round2]
  refine ⟨h, ?_⟩
  rw [h]
  have habs : |(8 : ℚ)/100 - 6/100| = 1/50 := by
    rw [abs_of_nonneg] <;> norm_num
  rw [habs]
  norm_num

/-- Claim C5 (corrected): in `addTransaction` a member whose post-rescaling
amount is not strictly positive never gets a portion created (the filter checks
`split.amount > 0`), but `updateTransaction`'s reconciliation filter checks only
`split.userId` and non-ownership, so a qualifying member without an existing
portion gets one created regardless of the amount's sign. -/
theorem C5_nonpositive_amounts (t : TxnInput) (owner : String)
    (adjusted : List SplitShare) (existing : List Portion) :
    (∀ s ∈ addPortionCreates t, 0 < s.amount) ∧
    (∀ s ∈ adjusted, s.userId ≠ "" → s.userId ≠ owner →
      (∀ p ∈ buildMap existing, p.userId ≠ s.userId) →
      (s.userId, s.amount) ∈ (reconcile owner adjusted existing).2.1) := by
  constructor
  · intro s hs
    have h := (List.mem_filter.mp hs).2
    simp only [Bool.and_eq_true, bne_iff_ne, ne_eq, decide_eq_true_eq] at h
    exact h.2
  · intro s hs h1 h2 hnone
    have hsq : s ∈ adjusted.filter (fun x => x.userId != "" && x.userId != owner) :=
      List.mem_filter.mpr ⟨hs, by simp [h1, h2]⟩
    rw [reconcile_def]
    exact reconcileFold_mem_creates hsq hnone

/-- Witness for C5: a concrete `addTransaction` create has a positive amount,
and a concrete reconciliation create fires for the zero-amount member "b". -/
theorem C5_witness :
    ((⟨"b", 100, 100⟩ : SplitShare) ∈
        addPortionCreates ⟨100, "d", "dt", "c", "o", "expense", some "h", [⟨"b", 100, 100⟩]⟩ ∧
      (0 : ℚ) < (⟨"b", 100, 100⟩ : SplitShare).amount) ∧
    ("b", (0 : ℚ)) ∈ (reconcile "o" [⟨"b", 0, 0⟩] []).2.1 := by
  have hmem : (⟨"b", 100, 100⟩ : SplitShare) ∈
      addPortionCreates ⟨100, "d", "dt", "c", "o", "expense", some "h", [⟨"b", 100, 100⟩]⟩ := by
    simp [addPortionCreates, adjustSplitInfo, rawSum]
    norm_num [round2]
  exact ⟨⟨hmem, (C5_nonpositive_amounts ⟨100, "d", "dt", "c", "o", "expense", some "h",
      [⟨"b", 100, 100⟩]⟩ "o" [] []).1 _ hmem⟩,
    (C5_nonpositive_amounts ⟨100, "d", "dt", "c", "o", "expense", some "h",
      [⟨"b", 100, 100⟩]⟩ "o" [⟨"b", 0, 0⟩] []).2 ⟨"b", 0, 0⟩ (by simp) (by decide) (by decide)
      (by simp [buildMap])⟩

/-- Counterexample for C5 as stated: updating the main transaction "m" (total
50) with the split {o: 50, b: 0} creates a split-portion document for member
"b" with amount 0, which is not strictly positive. -/
theorem C5_counterexample :
    (updateTransaction exDb5 "m" exData5 "now" ["p1"]).1 =
      [⟨"m", 50, "d", "dt", "c", "o", "expense", some "h",
          [⟨"o", 50, 100⟩, ⟨"b", 0, 0⟩], false, none⟩,
        ⟨"p1", 0, "d", "dt", "c", "b", "expense", some "h", [], true, some "m"⟩] ∧
    ¬(0 < (0 : ℚ)) := by
  constructor
  · norm_num [updateTransaction, getDocM, exDb5, exData5, sanitizeUpdate, applyFields,
      reconcile_def, buildMap, reconcileFold, portionFields, jsOrQ, jsOrS, optTruthy,
      adjustSplitInfo, rawSum, round2]
    simp
  · norm_num

end MoneyManager
